import Mathlib

/-!
Shallow embedding of the `discodex` bridge (package `internal/codex` and the
richer streaming `MCPBridge` revision, plus `interactive_tail_bridge.go`).

Conventions of the embedding:
* Go `time.Time` values are encoded as integers (nanoseconds/seconds since the
  Go zero time); every real file-modification time is positive, so the Go zero
  time corresponds to `0`.
* Go maps are encoded as association lists or as functions into `Option`;
  a missing key yields the Go zero value (`""` for strings).
* Go errors are `Option String` / `Except`-style values; a `nil` error is
  `none` / `Except.ok`.
* Concurrency is encoded as explicit event traces interpreted by a step
  function over the bridge's shared state; each trace entry is one critical
  section executed by some task, and a trace is any interleaving that respects
  each task's program order.
-/

namespace Discodex

/-! ### limitedBuffer (interactive_tail_bridge.go)

`limitedBuffer` stores up to `max` bytes and always reports a full write. -/

structure limitedBuffer where
  buf : List UInt8
  max : Nat
deriving DecidableEq, Repr

def newLimitedBuffer (max : Nat) : limitedBuffer := ⟨[], max⟩

/-- Embedding of `limitedBuffer.Write`: stores up to `max - len(buf)` bytes of
`p` (a prefix of `p` when truncating) and returns `(len(p), nil)`. -/
def limitedBuffer.Write (b : limitedBuffer) (p : List UInt8) :
    limitedBuffer × Nat × Option String :=
  let remaining : Int := (b.max : Int) - (b.buf.length : Int)
  let b' :=
    if 0 < remaining then
      if (p.length : Int) ≤ remaining then
        limitedBuffer.mk (b.buf ++ p) b.max
      else
        limitedBuffer.mk (b.buf ++ p.take (b.max - b.buf.length)) b.max
    else b
  (b', p.length, none)

/-- Iterate `Write` over a sequence of inputs. -/
def writeAll (b : limitedBuffer) (ps : List (List UInt8)) : limitedBuffer :=
  ps.foldl (fun acc p => (acc.Write p).1) b

/-! ### Request correlator (MCPBridge.requestForChannel / deliver)

State of the pending-request table, driven by an event trace.  `register id`
is the caller inserting its buffered one-slot channel under a fresh id;
`respond id` is `deliver` running for a matching response line; `timeoutEnd`
and `cancelEnd` are the two non-response ways `requestForChannel`'s `select`
can return (the code touches no shared state on those paths); `clearAll` is
the wholesale `m.pending = map[...]{}` reset in `ChatMulti`'s failure path. -/

inductive PendEv
  | register (id : Nat)
  | respond (id : Nat)
  | timeoutEnd (id : Nat)
  | cancelEnd (id : Nat)
  | clearAll
deriving DecidableEq, Repr

structure CorrState where
  pending : List Nat
  delivered : List Nat
deriving DecidableEq, Repr

/-- One correlator event, as the code executes it.  `deliver` (here `respond`)
looks the id up under the mutex, deletes the entry if present and then sends
the payload into the slot exactly once; a miss is a silent no-op.  A wait that
ends by per-request timeout or caller cancellation returns without touching
the table. -/
def corrStep (st : CorrState) (e : PendEv) : CorrState :=
  match e with
  | .register id => ⟨id :: st.pending, st.delivered⟩
  | .respond id =>
      if id ∈ st.pending then ⟨st.pending.erase id, st.delivered ++ [id]⟩
      else st
  | .timeoutEnd _ => st
  | .cancelEnd _ => st
  | .clearAll => ⟨[], st.delivered⟩

def corrRunFrom (st : CorrState) (evs : List PendEv) : CorrState :=
  evs.foldl corrStep st

def corrRun (evs : List PendEv) : CorrState :=
  corrRunFrom ⟨[], []⟩ evs

/-- Number of `register id` events in a trace. -/
def registerCount (evs : List PendEv) (id : Nat) : Nat :=
  evs.count (PendEv.register id)

/-! ### ChatMulti's failure/restart path (richer MCPBridge)

`ChatMulti` sends one `tools/call` via `requestForChannel`; on any error it
tears the session down (close stdin, kill the process, drop readiness, reset
the whole pending table), calls `ensureStarted` once, and — only if that
succeeded — re-issues the same call once.  A failure of the retry, or of the
restart, is returned as-is. -/

structure SessState where
  stdinOpen : Bool
  procAlive : Bool
  ready : Bool
  pending : List Nat
deriving DecidableEq, Repr

/-- The forced teardown block inside `ChatMulti`'s error branch:
`stdin.Close(); cmd.Process.Kill(); ready = false; pending = map{}`. -/
def teardown (_s : SessState) : SessState :=
  ⟨false, false, false, []⟩

inductive GoError
  | writeError
  | requestTimeout
  | ctxCanceled
  | startError (msg : String)
  | other (msg : String)
deriving DecidableEq, Repr

/-- Trace of one `ChatMulti` call attempt sequence: whether the teardown block
ran (and the state it left), how many `ensureStarted` restarts were attempted,
how many times the `tools/call` request was issued, and the final value
returned to the caller. -/
structure RetryTrace where
  afterTeardown : Option SessState
  restartAttempts : Nat
  callAttempts : Nat
  result : Except GoError String
deriving Repr

/-- Embedding of the call/teardown/restart/retry control flow of `ChatMulti`.
`first` is the outcome of the first `requestForChannel`, `restart` is the
outcome of the single `ensureStarted` in the error branch (`none` = success),
`second` the outcome of the one retry (consulted only when the restart
succeeded). -/
def chatCallWithRetry (s : SessState) (first : Except GoError String)
    (restart : Option GoError) (second : Except GoError String) : RetryTrace :=
  match first with
  | .ok r => ⟨none, 0, 1, .ok r⟩
  | .error e =>
      let s' := teardown s
      match restart with
      | none => ⟨some s', 1, 2, second⟩
      | some _ => ⟨some s', 1, 1, .error e⟩

/-! ### ensureStarted / start (richer MCPBridge)

The richer revision's `ensureStarted` takes the mutex only to read
`ready && deadCh != nil && !isDead()`, releases it, and then — when that check
was false — calls `start` with no lock held (the code comments: start "without
holding the lock to avoid deadlocks").  We model two concurrent callers A and
B; each runs its check step and then, if and only if its check observed
`false`, its start step.  A start spawns one child process and eventually
publishes `deadCh` and `ready = true`; it is modelled as one atomic block,
which only under-counts the interleavings that spawn twice. -/

structure EnsState where
  ready : Bool
  hasDeadCh : Bool
  dead : Bool
  spawns : Nat
  checkedA : Option Bool
  checkedB : Option Bool
deriving DecidableEq, Repr

inductive EnsAct
  | checkA
  | checkB
  | spawnA
  | spawnB
deriving DecidableEq, Repr

/-- The guarded readiness check `m.ready && m.deadCh != nil && !m.isDead()`. -/
def ensAlready (s : EnsState) : Bool :=
  s.ready && s.hasDeadCh && !s.dead

def ensStep (s : EnsState) (a : EnsAct) : EnsState :=
  match a with
  | .checkA => { s with checkedA := some (ensAlready s) }
  | .checkB => { s with checkedB := some (ensAlready s) }
  | .spawnA =>
      match s.checkedA with
      | some false =>
          { s with spawns := s.spawns + 1, hasDeadCh := true, dead := false,
                   ready := true }
      | _ => s
  | .spawnB =>
      match s.checkedB with
      | some false =>
          { s with spawns := s.spawns + 1, hasDeadCh := true, dead := false,
                   ready := true }
      | _ => s

def ensRunFrom (s : EnsState) (acts : List EnsAct) : EnsState :=
  acts.foldl ensStep s

/-- A bridge that has never started a process: no session, no death channel. -/
def ensInit : EnsState :=
  ⟨false, false, false, 0, none, none⟩

def ensRun (acts : List EnsAct) : EnsState :=
  ensRunFrom ensInit acts

/-! ### Idle supervisor (MCPBridge.touchActivity and its AfterFunc handler)

`touchActivity` records `lastActive = now`, stops the previous timer and arms
a single new timer for `idleSeconds` from now; the fired handler re-reads
`lastActive` and closes only when at least the threshold has elapsed since it.
Time is in seconds. -/

structure IdleState where
  idleSeconds : Int
  lastActive : Nat
  timerDeadline : Option Nat
deriving DecidableEq, Repr

def touchActivity (st : IdleState) (now : Nat) : IdleState :=
  if st.idleSeconds ≤ 0 then st
  else { st with lastActive := now,
                 timerDeadline := some (now + st.idleSeconds.toNat) }

/-- The body of the `time.AfterFunc` handler, evaluated when the armed timer
fires at time `now`: it returns `true` exactly when it invokes `m.Close()`,
i.e. when `idleSeconds > 0` and `time.Since(lastActive)` is not below the
threshold. -/
def idleFireCloses (st : IdleState) (now : Nat) : Bool :=
  if st.idleSeconds ≤ 0 then false
  else decide (st.lastActive + st.idleSeconds.toNat ≤ now)

/-! ### Event router (MCPBridge.readLoop / handleNotify)

A parsed notification, as `handleNotify` inspects it.  `requestId` keeps the
distinctions the Go type switches make on `params._meta.requestId`: a JSON
number (`float64`), a string, an absent key, or a value of any other type.
`msg` is `params.msg` (`none` when absent or not an object); of it the code
reads only `type`, `delta` and `message` (missing or non-string fields read as
`""` via `getD`). -/

inductive ReqIdVal
  | num (n : Int)
  | str (s : String)
  | absent
  | otherType
deriving DecidableEq, Repr

structure EvMsg where
  ty : String
  delta : Option String
  message : Option String
deriving DecidableEq, Repr

structure Notif where
  method : String
  requestId : ReqIdVal
  msg : Option EvMsg
deriving DecidableEq, Repr

/-- Embedding of `parseID`: digit-by-digit accumulation, error on any
non-digit byte (the Go loop body never runs on `""`, so `parseID "" = ok 0`). -/
def parseIDChars : List Char → Int → Except String Int
  | [], n => .ok n
  | c :: rest, n =>
      if c < '0' ∨ '9' < c then .error "non-numeric id"
      else parseIDChars rest (n * 10 + ((c.toNat : Int) - ('0'.toNat : Int)))

def parseID (s : String) : Except String Int :=
  parseIDChars s.toList 0

/-- Go map read `m.owners[id]` — missing keys read as `""`. -/
def lookupOwner (owners : List (Int × String)) (id : Int) : String :=
  match owners.find? (fun kv => kv.1 == id) with
  | some kv => kv.2
  | none => ""

/-- The owner resolution at the top of `handleNotify`: a numeric id is looked
up directly, a string id goes through `parseID` first, anything else leaves
the owner empty. -/
def ownerFor (owners : List (Int × String)) (rid : ReqIdVal) : String :=
  match rid with
  | .num n => lookupOwner owners n
  | .str s =>
      match parseID s with
      | .ok id => lookupOwner owners id
      | .error _ => ""
  | .absent => ""
  | .otherType => ""

/-- Reasoning-buffer key: only a `float64` requestId sets it, otherwise `0`
(the code's `if rv, ok := meta["requestId"].(float64)` pattern). -/
def bufKey (rid : ReqIdVal) : Int :=
  match rid with
  | .num n => n
  | _ => 0

def bufGet (buf : List (Int × String)) (k : Int) : String :=
  match buf.find? (fun kv => kv.1 == k) with
  | some kv => kv.2
  | none => ""

def bufSet (buf : List (Int × String)) (k : Int) (v : String) :
    List (Int × String) :=
  (k, v) :: buf.filter (fun kv => !(kv.1 == k))

def bufDel (buf : List (Int × String)) (k : Int) : List (Int × String) :=
  buf.filter (fun kv => !(kv.1 == k))

/-- Embedding of `truncate` (character-based where the Go code is
byte-based). -/
def truncate (s : String) (n : Nat) : String :=
  if s.length ≤ n then s
  else if n ≤ 3 then s.take n
  else s.take (n - 3) ++ "..."

/-- One adapter callback fired by `handleNotify` (we model all four callback
slots as registered, which the Discord front-end does). -/
inductive Callback
  | reasoning (owner text : String)
  | reasoningEnd (owner : String)
  | agentDelta (owner : String) (requestID : Int) (delta : String)
  | agentDone (owner : String) (requestID : Int) (final : String)
deriving DecidableEq, Repr

structure EvState where
  owners : List (Int × String)
  reasonBuf : List (Int × String)
deriving DecidableEq, Repr

/-- Embedding of `MCPBridge.handleNotify` (richer revision): only
`codex/event` notifications are handled; the owner is resolved from
`_meta.requestId`; a missing `msg` object returns early; then the event type
dispatches, each callback firing only when its owner tag is non-empty.
`agent_message` falls through into the `task_complete` cleanup.
(The `touchActivity` call it also makes is modelled by `notifyTouch`.) -/
def handleNotify (st : EvState) (n : Notif) : EvState × List Callback :=
  if n.method ≠ "codex/event" then (st, [])
  else
    let owner := ownerFor st.owners n.requestId
    match n.msg with
    | none => (st, [])
    | some msg =>
        let key := bufKey n.requestId
        if msg.ty = "agent_reasoning_delta" then
          let delta := msg.delta.getD ""
          if delta = "" then (st, [])
          else
            let text := bufGet st.reasonBuf key ++ delta
            (⟨st.owners, bufSet st.reasonBuf key text⟩,
             if owner ≠ "" then [Callback.reasoning owner (truncate text 120)]
             else [])
        else if msg.ty = "agent_reasoning" then
          let fin := msg.message.getD ""
          if fin = "" then (st, [])
          else
            (st,
             if owner ≠ "" then [Callback.reasoning owner (truncate fin 120)]
             else [])
        else if msg.ty = "agent_message_delta" then
          let d := msg.delta.getD ""
          if d = "" then (st, [])
          else
            (st,
             if owner ≠ "" then [Callback.agentDelta owner key d] else [])
        else if msg.ty = "agent_message" then
          let fin := msg.message.getD ""
          let cbs :=
            if owner ≠ "" then [Callback.agentDone owner key fin] else []
          (⟨st.owners, bufDel st.reasonBuf key⟩,
           cbs ++ (if owner ≠ "" then [Callback.reasoningEnd owner] else []))
        else if msg.ty = "task_complete" then
          (⟨st.owners, bufDel st.reasonBuf key⟩,
           if owner ≠ "" then [Callback.reasoningEnd owner] else [])
        else (st, [])

/-- The `touchActivity` call inside `handleNotify`: it happens only for a
`codex/event` notification that carries a `msg` object (any other received
notification returns before reaching it). -/
def notifyTouch (st : IdleState) (now : Nat) (n : Notif) : IdleState :=
  if n.method = "codex/event" then
    match n.msg with
    | some _ => touchActivity st now
    | none => st
  else st

/-- One line read by `readLoop`: blank and unparseable lines are skipped,
a line with a non-empty `method` goes to `handleNotify`, a line with a
numeric-or-parsable id goes to `deliver` (which fires no adapter callback). -/
inductive WireLine
  | blank
  | malformed
  | notif (n : Notif)
  | response (id : Int)
deriving DecidableEq, Repr

def lineStep (st : EvState) (l : WireLine) : EvState × List Callback :=
  match l with
  | .blank => (st, [])
  | .malformed => (st, [])
  | .notif n => handleNotify st n
  | .response _ => (st, [])

/-- The reader loop: process lines in order, accumulating fired callbacks;
no line outcome terminates the loop. -/
def readLoop (st : EvState) (ls : List WireLine) : EvState × List Callback :=
  match ls with
  | [] => (st, [])
  | l :: rest =>
      let r := lineStep st l
      let r' := readLoop r.1 rest
      (r'.1, r.2 ++ r'.2)

/-! ### Conversation store and ChatMulti's tool decision

`m.convo` is a `sync.Map` from channel id to conversation id, modelled as a
function into `Option String`. -/

def convoStore (convo : String → Option String) (owner cid : String) :
    String → Option String :=
  fun o => if o = owner then some cid else convo o

def convoDelete (convo : String → Option String) (owner : String) :
    String → Option String :=
  fun o => if o = owner then none else convo o

/-- Embedding of `MCPBridge.Reset`: an empty channel id returns at once,
otherwise the binding is deleted (`sync.Map.Delete` of a missing key is a
no-op). -/
def Reset (convo : String → Option String) (channelID : String) :
    String → Option String :=
  if channelID = "" then convo else convoDelete convo channelID

/-- The argument object `ChatMulti` builds for `tools/call`.  Absent map keys
are `none`. -/
structure CallArgs where
  prompt : String
  user : Option String
  conversationId : Option String
  sandbox : Option String
  approvalPolicy : Option String
  cwd : Option String
deriving DecidableEq, Repr

/-- Embedding of the tool/argument decision in `ChatMulti` (richer revision):
a bound owner gets `codex-reply` with the stored conversation id and the
prompt as given; an unbound owner gets `codex` with the prompt prefixed by
the trimmed preamble (when non-empty), fixed sandbox/approval-policy values
and the workdir as `cwd` when set.  `binding` is `m.convo.Load(ch.ChannelID)`
and `userTag` the optional context user tag. -/
def chatMultiCall (binding : Option String) (preamble : String)
    (userTag : Option String) (workdir : String) (prompt : String) :
    String × CallArgs :=
  match binding with
  | some cid =>
      ("codex-reply",
       ⟨prompt, userTag, some cid, none, none, none⟩)
  | none =>
      let pre := preamble.trim
      let prompt' := if pre ≠ "" then pre ++ "\n\n" ++ prompt.trim else prompt
      ("codex",
       ⟨prompt', userTag, none, some "workspace-write", some "never",
        if workdir ≠ "" then some workdir else none⟩)

/-- Embedding of the binding update after a `tools/call` result: the top-level
`conversationId`, when a non-empty string (`resultCid = some cid`; a missing
key or non-string value is `none`), is stored for the owner. -/
def chatMultiAfterResult (convo : String → Option String) (owner : String)
    (resultCid : Option String) : String → Option String :=
  match resultCid with
  | some cid => if cid ≠ "" then convoStore convo owner cid else convo
  | none => convo

/-! ### Tail-transport session discovery (interactive_tail_bridge.go)

Directory contents at one poll are a list of walk entries; the baseline
snapshot maps path to modification time.  Times are integers with the Go zero
`time.Time` at `0` (every real modification time is positive). -/

structure DirEntry where
  path : String
  name : String
  isDir : Bool
  mtime : Int
deriving DecidableEq, Repr

/-- The clock-skew grace window in `waitNewSessionFileFromSnapshot`
(`since.Add(-2 * time.Second)`), in seconds. -/
def sessionGraceSeconds : Int := 2

/-- ASCII lower-casing of a file name (`strings.ToLower`; the names under the
session root are ASCII timestamps and identifiers). -/
def lowerName (s : String) : String :=
  String.mk (s.data.map Char.toLower)

/-- `strings.HasSuffix` on the character sequence (the suffixes compared here
are ASCII, where byte and character suffixes coincide). -/
def strEndsWith (s t : String) : Bool :=
  t.data.isSuffixOf s.data

def isJsonlFile (e : DirEntry) : Bool :=
  !e.isDir && strEndsWith (lowerName e.name) ".jsonl"

def lookupSnap (before : List (String × Int)) (p : String) : Option Int :=
  match before.find? (fun kv => kv.1 == p) with
  | some kv => some kv.2
  | none => none

/-- The per-entry filter of one poll pass: keep `.jsonl` regular files whose
modification time is not before `since - grace` and which are either absent
from the baseline or strictly newer than their baseline entry. -/
def entryQualifies (before : List (String × Int)) (since : Int)
    (e : DirEntry) : Bool :=
  isJsonlFile e &&
  !(decide (e.mtime < since - sessionGraceSeconds)) &&
  (match lookupSnap before e.path with
   | some bt => decide (bt < e.mtime)
   | none => true)

/-- The per-entry accumulator update of one `filepath.WalkDir` pass: a
qualifying entry strictly newer than the best so far becomes the
candidate. -/
def pickStep (before : List (String × Int)) (since : Int)
    (acc : Int × Option String) (e : DirEntry) : Int × Option String :=
  if entryQualifies before since e && decide (acc.1 < e.mtime) then
    (e.mtime, some e.path)
  else acc

/-- One `filepath.WalkDir` pass: among qualifying entries, the one with the
strictly greatest modification time wins (`latest` starts at the Go zero
time, `candidate` at `""` i.e. `none`). -/
def pickCandidate (entries : List DirEntry) (before : List (String × Int))
    (since : Int) : Option String :=
  (entries.foldl (pickStep before since) ((0 : Int), (none : Option String))).2

/-- Embedding of `waitNewSessionFileFromSnapshot`: poll-diff the directory
until some pass yields a candidate; the bounded timeout limits the number of
polls, after which the session-discovery error is returned. -/
def waitNewSessionFileFromSnapshot (polls : List (List DirEntry))
    (before : List (String × Int)) (since : Int) : Except String String :=
  match polls with
  | [] => .error "session file not found"
  | p :: rest =>
      match pickCandidate p before since with
      | some c => .ok c
      | none => waitNewSessionFileFromSnapshot rest before since

/-- The discovery step of `InteractiveTailBridge.ensure`: on a discovery
error the freshly spawned process is killed (`cmd.Process.Kill()`); the
boolean records that kill. -/
def ensureDiscover (polls : List (List DirEntry))
    (before : List (String × Int)) (since : Int) :
    Except String String × Bool :=
  match waitNewSessionFileFromSnapshot polls before since with
  | .ok p => (.ok p, false)
  | .error e => (.error e, true)

/-! ### Tail-transport chat loop (InteractiveTailBridge.Chat) -/

/-- The prompt line written to the session's stdin:
`strings.TrimSpace(prompt) + "\n"`. -/
def promptLine (prompt : String) : String :=
  prompt.trim ++ "\n"

/-- The effective hard timeout in seconds: the configured value, or 180 when
it is not positive. -/
def effectiveTimeoutSeconds (conf : Int) : Int :=
  if conf ≤ 0 then 180 else conf

/-- The idle-gap timer duration of the collect loop, in milliseconds. -/
def idleGapMillis : Nat := 1200

/-- One firing of the `select` in `Chat`'s collect loop. -/
inductive TailEv
  | msg (m : String)
  | idleFire
  | deadlineFire
  | cancel
deriving DecidableEq, Repr

inductive ChatOutcome
  | replied (s : String)
  | errCtxCanceled
  | errTailTimeout
  | awaiting (last : String)
deriving DecidableEq, Repr

/-- Embedding of the collect loop of `InteractiveTailBridge.Chat` over the
sequence of `select` firings: a queue message (non-empty) replaces `last` and
re-arms the idle timer; an idle firing returns `last` if any message was
seen, else re-arms and keeps waiting; the hard deadline returns `last` or
the tail-timeout error; caller cancellation returns `last` or the context
error.  An exhausted trace means the loop is still blocked in `select`. -/
def chatLoop : List TailEv → String → ChatOutcome
  | [], last => .awaiting last
  | .msg m :: rest, last => chatLoop rest (if m ≠ "" then m else last)
  | .idleFire :: rest, last =>
      if last ≠ "" then .replied last else chatLoop rest last
  | .deadlineFire :: _, last =>
      if last = "" then .errTailTimeout else .replied last
  | .cancel :: _, last =>
      if last = "" then .errCtxCanceled else .replied last

/-- The latest non-empty message of a queue drain, starting from `last`. -/
def latestMsgFrom (last : String) (ms : List String) : String :=
  ms.foldl (fun l m => if m ≠ "" then m else l) last

/-! ## Theorems -/

/-! ### C10: limitedBuffer never back-pressures and stores a capped prefix -/

lemma write_take (max : Nat) (l p : List UInt8) :
    ((limitedBuffer.mk (l.take max) max).Write p).1
      = limitedBuffer.mk ((l ++ p).take max) max := by
  have hsplit : (l ++ p).take max = l.take max ++ p.take (max - l.length) :=
    List.take_append_eq_append_take
  simp only [limitedBuffer.Write, List.length_take]
  split_ifs with h1 h2
  · have hlen : l.length < max := by omega
    have hl : l.take max = l := List.take_of_length_le hlen.le
    have hp : l.length + p.length ≤ max := by omega
    rw [hl, hsplit, hl, List.take_of_length_le (by omega)]
  · have hlen : l.length < max := by omega
    have hl : l.take max = l := List.take_of_length_le hlen.le
    rw [hsplit, hl, Nat.min_eq_right hlen.le]
  · have hlen : max ≤ l.length := by omega
    have hz : max - l.length = 0 := Nat.sub_eq_zero_of_le hlen
    rw [hsplit, hz, List.take_zero, List.append_nil]

lemma writeAll_take (max : Nat) (ps : List (List UInt8)) :
    ∀ l : List UInt8,
      (writeAll (limitedBuffer.mk (l.take max) max) ps).buf
        = (l ++ ps.flatten).take max := by
  induction ps with
  | nil => intro l; simp [writeAll]
  | cons p rest ih =>
      intro l
      show (writeAll ((limitedBuffer.mk (l.take max) max).Write p).1 rest).buf = _
      rw [write_take, ih (l ++ p)]
      simp [List.append_assoc]

/-- C10: every `limitedBuffer.Write` returns `(len p, nil)` — no error, no
short write — and after any sequence of writes the stored content is the
prefix of the concatenated inputs capped at `max` bytes. -/
theorem c10_limitedBuffer_full_write_capped_prefix :
    (∀ (b : limitedBuffer) (p : List UInt8),
        (b.Write p).2 = (p.length, (none : Option String))) ∧
    (∀ (max : Nat) (ps : List (List UInt8)),
        (writeAll (newLimitedBuffer max) ps).buf = ps.flatten.take max ∧
        (writeAll (newLimitedBuffer max) ps).buf.length ≤ max) := by
  constructor
  · intro b p; rfl
  · intro max ps
    have h0 : newLimitedBuffer max
        = limitedBuffer.mk (([] : List UInt8).take max) max := by
      simp [newLimitedBuffer]
    have h := writeAll_take max ps []
    rw [← h0] at h
    simp only [List.nil_append] at h
    exact ⟨h, by rw [h]; exact List.length_take_le _ _⟩

/-! ### C9: Reset is idempotent, a no-op when unbound, and reverts to start -/

/-- C9: `Reset` is idempotent, is a no-op when the owner has no binding, and
for a real (non-empty) owner it clears the binding, so the next `ChatMulti`
turn decides tool `"codex"` again. -/
theorem c9_reset_idempotent_reverts_to_start
    (convo : String → Option String) (owner : String) :
    Reset (Reset convo owner) owner = Reset convo owner ∧
    (convo owner = none → Reset convo owner = convo) ∧
    (owner ≠ "" →
      (Reset convo owner) owner = none ∧
      ∀ pre tag wd p,
        (chatMultiCall ((Reset convo owner) owner) pre tag wd p).1
          = "codex") := by
  refine ⟨?_, ?_, ?_⟩
  · unfold Reset convoDelete
    split_ifs with h
    · rfl
    · funext o
      by_cases ho : o = owner <;> simp [ho]
  · intro hnone
    unfold Reset convoDelete
    split_ifs with h
    · rfl
    · funext o
      by_cases ho : o = owner
      · simp [ho, hnone.symm]
      · simp [ho]
  · intro hne
    have hval : (Reset convo owner) owner = none := by
      unfold Reset convoDelete
      rw [if_neg hne]
      simp
    refine ⟨hval, ?_⟩
    intro pre tag wd p
    rw [hval]
    rfl

theorem c9_witness :
    ("C" : String) ≠ "" ∧
    (Reset (Reset (fun o => if o = "C" then some "abc123" else none) "C") "C"
        = Reset (fun o => if o = "C" then some "abc123" else none) "C") ∧
    (Reset (fun o => if o = "C" then some "abc123" else none) "C") "C" = none ∧
    (chatMultiCall
        ((Reset (fun o => if o = "C" then some "abc123" else none) "C") "C")
        "" none "" "show a.txt").1 = "codex" := by
  have h := c9_reset_idempotent_reverts_to_start
    (fun o => if o = "C" then some "abc123" else none) "C"
  have h3 := h.2.2 (by decide)
  exact ⟨by decide, h.1, h3.1, h3.2 "" none "" "show a.txt"⟩

/-! ### C2: first turn starts, result token binds, next turn replies -/

/-- C2: with no binding for the owner, `ChatMulti` issues tool `"codex"` with
the (preamble-prefixed) prompt, sandbox `"workspace-write"`, approval-policy
`"never"` and `cwd` exactly when a workdir override is set; a non-empty
`conversationId` in the result is bound immediately, and the owner's next
call issues `"codex-reply"` carrying the stored conversation id and the new
prompt (plus the optional user tag), with none of the start-call
parameters. -/
theorem c2_start_binds_then_reply
    (convo : String → Option String) (preamble : String) (tag : Option String)
    (workdir prompt owner cid prompt2 : String)
    (hunbound : convo owner = none) (hcid : cid ≠ "") :
    (chatMultiCall (convo owner) preamble tag workdir prompt).1 = "codex" ∧
    (chatMultiCall (convo owner) preamble tag workdir prompt).2.prompt
      = (if preamble.trim ≠ "" then preamble.trim ++ "\n\n" ++ prompt.trim
         else prompt) ∧
    (chatMultiCall (convo owner) preamble tag workdir prompt).2.sandbox
      = some "workspace-write" ∧
    (chatMultiCall (convo owner) preamble tag workdir prompt).2.approvalPolicy
      = some "never" ∧
    (chatMultiCall (convo owner) preamble tag workdir prompt).2.cwd
      = (if workdir ≠ "" then some workdir else none) ∧
    (chatMultiCall (convo owner) preamble tag workdir prompt).2.conversationId
      = none ∧
    (chatMultiAfterResult convo owner (some cid)) owner = some cid ∧
    chatMultiCall ((chatMultiAfterResult convo owner (some cid)) owner)
        preamble tag workdir prompt2
      = ("codex-reply",
         ⟨prompt2, tag, some cid, none, none, none⟩) := by
  have hbind : (chatMultiAfterResult convo owner (some cid)) owner
      = some cid := by
    show (if cid ≠ "" then convoStore convo owner cid else convo) owner
        = some cid
    rw [if_pos hcid]
    unfold convoStore
    simp
  rw [hunbound]
  refine ⟨rfl, rfl, rfl, rfl, rfl, rfl, hbind, ?_⟩
  rw [hbind]
  rfl

/-- Witness for C2, replaying the spec's scenario: owner `"C"` unbound sends
`"list files"`, gets token `"abc123"`, then sends `"show a.txt"`. -/
theorem c2_witness :
    ((fun _ : String => (none : Option String)) "C" = none) ∧
    ("abc123" : String) ≠ "" ∧
    (chatMultiCall ((fun _ : String => (none : Option String)) "C") "" none ""
        "list files").1 = "codex" ∧
    (chatMultiCall ((fun _ : String => (none : Option String)) "C") "" none ""
        "list files").2.sandbox = some "workspace-write" ∧
    (chatMultiAfterResult (fun _ : String => (none : Option String)) "C"
        (some "abc123")) "C" = some "abc123" ∧
    chatMultiCall
        ((chatMultiAfterResult (fun _ : String => (none : Option String)) "C"
            (some "abc123")) "C") "" none "" "show a.txt"
      = ("codex-reply",
         ⟨"show a.txt", none, some "abc123", none, none, none⟩) := by
  have h := c2_start_binds_then_reply (fun _ : String => none) "" none ""
    "list files" "C" "abc123" "show a.txt" rfl (by decide)
  exact ⟨rfl, by decide, h.1, h.2.2.1, h.2.2.2.2.2.2.1, h.2.2.2.2.2.2.2⟩

/-! ### C3: write failure → teardown, one restart, one retry -/

/-- C3: when the first `tools/call` attempt of a chat turn fails with a write
failure, `ChatMulti` runs the teardown block (stdin closed, process killed,
readiness dropped, pending table cleared), attempts exactly one restart, and
retries the original request exactly once when the restart succeeds; the
retry's failure is surfaced unmodified, and for every possible outcome there
are at most two call attempts and at most one restart. -/
theorem c3_write_failure_one_restart_one_retry
    (s : SessState) (restart : Option GoError)
    (second : Except GoError String) :
    (∀ first : Except GoError String,
        (chatCallWithRetry s first restart second).restartAttempts ≤ 1 ∧
        (chatCallWithRetry s first restart second).callAttempts ≤ 2) ∧
    (chatCallWithRetry s (.error GoError.writeError) restart
        second).afterTeardown = some ⟨false, false, false, []⟩ ∧
    (chatCallWithRetry s (.error GoError.writeError) restart
        second).restartAttempts = 1 ∧
    (restart = none →
      (chatCallWithRetry s (.error GoError.writeError) restart
          second).callAttempts = 2 ∧
      (chatCallWithRetry s (.error GoError.writeError) restart
          second).result = second) ∧
    (∀ e : GoError, restart = none → second = .error e →
      (chatCallWithRetry s (.error GoError.writeError) restart
          second).result = .error e) := by
  refine ⟨?_, ?_, ?_, ?_, ?_⟩
  · intro first
    cases first <;> cases restart <;>
      simp [chatCallWithRetry]
  · cases restart <;> rfl
  · cases restart <;> rfl
  · intro hr
    subst hr
    exact ⟨rfl, rfl⟩
  · intro e hr hs
    subst hr
    subst hs
    rfl

theorem c3_witness :
    ((none : Option GoError) = none) ∧
    ((Except.error GoError.writeError : Except GoError String)
        = .error GoError.writeError) ∧
    (chatCallWithRetry ⟨true, true, true, [7]⟩ (.error GoError.writeError)
        none (.error GoError.writeError)).afterTeardown
      = some ⟨false, false, false, []⟩ ∧
    (chatCallWithRetry ⟨true, true, true, [7]⟩ (.error GoError.writeError)
        none (.error GoError.writeError)).restartAttempts = 1 ∧
    (chatCallWithRetry ⟨true, true, true, [7]⟩ (.error GoError.writeError)
        none (.error GoError.writeError)).callAttempts = 2 ∧
    (chatCallWithRetry ⟨true, true, true, [7]⟩ (.error GoError.writeError)
        none (.error GoError.writeError)).result
      = .error GoError.writeError := by
  have h := c3_write_failure_one_restart_one_retry ⟨true, true, true, [7]⟩
    none (.error GoError.writeError)
  exact ⟨rfl, rfl, h.2.1, h.2.2.1, (h.2.2.2.1 rfl).1,
    h.2.2.2.2 GoError.writeError rfl rfl⟩

/-! ### C4: ensureStarted check-then-start race -/

/-- C4 counterexample: the interleaving where callers A and B both run the
guarded readiness check before either starts — legal, because `ensureStarted`
releases the mutex between its check and its call to `start` — spawns two
agent processes from a bridge that had none, refuting "two concurrent callers
of ensureStarted never spawn two agent processes". -/
theorem c4_counterexample_double_spawn :
    (ensRun [EnsAct.checkA, EnsAct.checkB, EnsAct.spawnA,
        EnsAct.spawnB]).spawns = 2 := by
  rfl

/-- C4 amended: `ensureStarted` is idempotent — a caller that observes a
ready Session whose death signal has not fired returns without spawning —
but the readiness check and the start are not atomic, so two concurrent
callers that both observe no ready Session each spawn a process: start is
not single-flight in this revision of the bridge. -/
theorem c4_amended_idempotent_but_not_single_flight
    (s : EnsState) (h1 : s.ready = true) (h2 : s.hasDeadCh = true)
    (h3 : s.dead = false) :
    ensAlready s = true ∧
    (ensRunFrom s [EnsAct.checkA, EnsAct.spawnA]).spawns = s.spawns ∧
    (ensRun [EnsAct.checkA, EnsAct.checkB, EnsAct.spawnA,
        EnsAct.spawnB]).spawns = 2 := by
  have halready : ensAlready s = true := by
    simp [ensAlready, h1, h2, h3]
  refine ⟨halready, ?_, rfl⟩
  show (ensStep (ensStep s .checkA) .spawnA).spawns = s.spawns
  simp [ensStep, halready]

theorem c4_witness :
    (⟨true, true, false, 1, none, none⟩ : EnsState).ready = true ∧
    (⟨true, true, false, 1, none, none⟩ : EnsState).hasDeadCh = true ∧
    (⟨true, true, false, 1, none, none⟩ : EnsState).dead = false ∧
    ensAlready ⟨true, true, false, 1, none, none⟩ = true ∧
    (ensRunFrom ⟨true, true, false, 1, none, none⟩
        [EnsAct.checkA, EnsAct.spawnA]).spawns
      = (⟨true, true, false, 1, none, none⟩ : EnsState).spawns := by
  have h := c4_amended_idempotent_but_not_single_flight
    ⟨true, true, false, 1, none, none⟩ rfl rfl rfl
  exact ⟨rfl, rfl, rfl, h.1, h.2.1⟩

/-! ### C5: idle timer reset and re-check -/

/-- C5 counterexample: a received notification whose method is not
`codex/event` (here a generic `notifications/message`) reaches `handleNotify`
and returns before `touchActivity`, leaving the idle state — and in
particular the armed deadline — untouched, refuting "every notification
received resets the single deadline timer to now + T".  With threshold 10 and
the timer armed for time 10, the notification at time 50 leaves the deadline
at 10 instead of 60. -/
theorem c5_counterexample_non_event_notification_does_not_reset :
    notifyTouch ⟨10, 0, some 10⟩ 50
        ⟨"notifications/message", ReqIdVal.num 1,
         some ⟨"agent_message", none, some "x"⟩⟩
      = ⟨10, 0, some 10⟩ ∧
    (notifyTouch ⟨10, 0, some 10⟩ 50
        ⟨"notifications/message", ReqIdVal.num 1,
         some ⟨"agent_message", none, some "x"⟩⟩).timerDeadline
      ≠ some (50 + 10) := by
  exact ⟨rfl, by decide⟩

/-- C5 amended: with idle threshold T > 0, each activity touch — performed
for chat requests and for `codex/event` notifications carrying a `msg`
payload, but not for other received notifications — records the activity
time and re-arms the single timer for now + T; the fired handler closes only
when at least T has elapsed since the last recorded activity, so a touch
before expiry re-arms a fresh T-length window. -/
theorem c5_amended_touch_rearms_and_fire_rechecks
    (st : IdleState) (now a t : Nat) (n : Notif)
    (hpos : 0 < st.idleSeconds) :
    (touchActivity st now).lastActive = now ∧
    (touchActivity st now).timerDeadline
      = some (now + st.idleSeconds.toNat) ∧
    (n.method = "codex/event" → n.msg ≠ none →
      notifyTouch st now n = touchActivity st now) ∧
    (n.method ≠ "codex/event" → notifyTouch st now n = st) ∧
    (idleFireCloses (touchActivity st a) t = true ↔
      a + st.idleSeconds.toNat ≤ t) := by
  have hnle : ¬ st.idleSeconds ≤ 0 := not_le.mpr hpos
  refine ⟨?_, ?_, ?_, ?_, ?_⟩
  · unfold touchActivity
    rw [if_neg hnle]
  · unfold touchActivity
    rw [if_neg hnle]
  · intro hm hmsg
    unfold notifyTouch
    rw [if_pos hm]
    rcases hcase : n.msg with _ | m
    · exact absurd hcase hmsg
    · rfl
  · intro hm
    unfold notifyTouch
    rw [if_neg hm]
  · unfold touchActivity
    rw [if_neg hnle]
    unfold idleFireCloses
    simp only [if_neg hnle, decide_eq_true_eq]

theorem c5_witness :
    (0 : Int) < (⟨10, 3, some 13⟩ : IdleState).idleSeconds ∧
    (touchActivity ⟨10, 3, some 13⟩ 5).lastActive = 5 ∧
    (touchActivity ⟨10, 3, some 13⟩ 5).timerDeadline = some (5 + 10) ∧
    (notifyTouch ⟨10, 3, some 13⟩ 5
        ⟨"codex/event", ReqIdVal.num 1, some ⟨"task_complete", none, none⟩⟩
      = touchActivity ⟨10, 3, some 13⟩ 5) ∧
    (idleFireCloses (touchActivity ⟨10, 3, some 13⟩ 5) 14 = true ↔
      5 + (10 : Int).toNat ≤ 14) := by
  have h := c5_amended_touch_rearms_and_fire_rechecks
    ⟨10, 3, some 13⟩ 5 5 14
    ⟨"codex/event", ReqIdVal.num 1, some ⟨"task_complete", none, none⟩⟩
    (by decide)
  exact ⟨by decide, h.1, h.2.1, h.2.2.1 rfl (by decide), h.2.2.2.2⟩

/-! ### C7: tail-transport chat collect loop -/

lemma chatLoop_msgs (ms : List String) (evs : List TailEv) (last : String) :
    chatLoop (ms.map TailEv.msg ++ evs) last
      = chatLoop evs (latestMsgFrom last ms) := by
  induction ms generalizing last with
  | nil => simp [latestMsgFrom]
  | cons m rest ih =>
      show chatLoop (TailEv.msg m :: (rest.map TailEv.msg ++ evs)) last = _
      rw [chatLoop]
      rw [ih]
      rfl

/-- C7: `Chat` writes the trimmed prompt plus newline; the hard timeout
defaults to 180 s when not positively configured; the idle gap is 1200 ms;
and the collect loop returns the latest queue message on an idle gap after
at least one message was seen (and keeps waiting when none was), returns the
latest message or the tail-timeout error when the hard deadline fires, and is
unblocked by caller cancellation, returning the latest message or the context
error. -/
theorem c7_tail_chat_collect_loop (p : String) (conf : Int)
    (ms : List String) :
    promptLine p = p.trim ++ "\n" ∧
    (conf ≤ 0 → effectiveTimeoutSeconds conf = 180) ∧
    (0 < conf → effectiveTimeoutSeconds conf = conf) ∧
    idleGapMillis = 1200 ∧
    (latestMsgFrom "" ms ≠ "" →
      chatLoop (ms.map TailEv.msg ++ [TailEv.idleFire]) ""
        = ChatOutcome.replied (latestMsgFrom "" ms)) ∧
    (latestMsgFrom "" ms = "" →
      chatLoop (ms.map TailEv.msg ++ [TailEv.idleFire]) ""
        = ChatOutcome.awaiting "") ∧
    (chatLoop (ms.map TailEv.msg ++ [TailEv.deadlineFire]) ""
      = if latestMsgFrom "" ms = "" then ChatOutcome.errTailTimeout
        else ChatOutcome.replied (latestMsgFrom "" ms)) ∧
    (chatLoop (ms.map TailEv.msg ++ [TailEv.cancel]) ""
      = if latestMsgFrom "" ms = "" then ChatOutcome.errCtxCanceled
        else ChatOutcome.replied (latestMsgFrom "" ms)) := by
  refine ⟨rfl, ?_, ?_, rfl, ?_, ?_, ?_, ?_⟩
  · intro h; unfold effectiveTimeoutSeconds; rw [if_pos h]
  · intro h; unfold effectiveTimeoutSeconds; rw [if_neg (not_le.mpr h)]
  · intro h
    rw [chatLoop_msgs]
    unfold chatLoop
    rw [if_pos h]
  · intro h
    rw [chatLoop_msgs, h]
    rfl
  · rw [chatLoop_msgs]
    unfold chatLoop
    by_cases h : latestMsgFrom "" ms = "" <;> simp [h]
  · rw [chatLoop_msgs]
    unfold chatLoop
    by_cases h : latestMsgFrom "" ms = "" <;> simp [h]

theorem c7_witness :
    latestMsgFrom "" ["a.txt b.txt"] ≠ "" ∧
    (0 : Int) ≤ 0 ∧
    promptLine " list files " = " list files ".trim ++ "\n" ∧
    effectiveTimeoutSeconds 0 = 180 ∧
    chatLoop (List.map TailEv.msg ["a.txt b.txt"] ++ [TailEv.idleFire]) ""
      = ChatOutcome.replied (latestMsgFrom "" ["a.txt b.txt"]) ∧
    chatLoop (List.map TailEv.msg ["a.txt b.txt"] ++ [TailEv.deadlineFire]) ""
      = (if latestMsgFrom "" ["a.txt b.txt"] = ""
         then ChatOutcome.errTailTimeout
         else ChatOutcome.replied (latestMsgFrom "" ["a.txt b.txt"])) := by
  have h := c7_tail_chat_collect_loop " list files " 0 ["a.txt b.txt"]
  exact ⟨by decide, le_refl 0, h.1, h.2.1 (le_refl 0),
    h.2.2.2.2.1 (by decide), h.2.2.2.2.2.2.1⟩

/-! ### C8: unroutable events are dropped silently -/

/-- C8: a `codex/event` notification whose embedded request id resolves to no
registered owner (owners are registered only with non-empty channel ids, so
an unregistered id reads back as `""`) fires no reasoning, streaming or end
callback and raises no error, and the reader loop goes on to process the
remaining lines exactly as it would from the resulting state. -/
theorem c8_unroutable_event_dropped
    (st : EvState) (n : Notif) (rest : List WireLine)
    (hm : n.method = "codex/event")
    (howner : ownerFor st.owners n.requestId = "") :
    (handleNotify st n).2 = [] ∧
    readLoop st (WireLine.notif n :: rest)
      = readLoop (handleNotify st n).1 rest := by
  have h1 : (handleNotify st n).2 = [] := by
    obtain ⟨method, rid, msg⟩ := n
    simp only at hm
    subst hm
    simp only at howner
    unfold handleNotify
    rw [if_neg (by simp)]
    cases msg with
    | none => rfl
    | some m =>
        simp only []
        rw [howner]
        split_ifs <;> simp_all
  refine ⟨h1, ?_⟩
  show (let r := lineStep st (WireLine.notif n)
        let r' := readLoop r.1 rest
        ((r'.1, r.2 ++ r'.2) : EvState × List Callback))
      = readLoop (handleNotify st n).1 rest
  simp only [lineStep, h1, List.nil_append]

theorem c8_witness :
    (⟨"codex/event", ReqIdVal.num 2,
        some ⟨"agent_message_delta", some "Hel", none⟩⟩ : Notif).method
      = "codex/event" ∧
    ownerFor [((1 : Int), "C")] (ReqIdVal.num 2) = "" ∧
    (handleNotify ⟨[((1 : Int), "C")], []⟩
        ⟨"codex/event", ReqIdVal.num 2,
         some ⟨"agent_message_delta", some "Hel", none⟩⟩).2 = [] ∧
    readLoop ⟨[((1 : Int), "C")], []⟩
        (WireLine.notif
            ⟨"codex/event", ReqIdVal.num 2,
             some ⟨"agent_message_delta", some "Hel", none⟩⟩ ::
          [WireLine.notif
            ⟨"codex/event", ReqIdVal.num 1,
             some ⟨"agent_message", none, some "Hello"⟩⟩])
      = readLoop
          (handleNotify ⟨[((1 : Int), "C")], []⟩
              ⟨"codex/event", ReqIdVal.num 2,
               some ⟨"agent_message_delta", some "Hel", none⟩⟩).1
          [WireLine.notif
            ⟨"codex/event", ReqIdVal.num 1,
             some ⟨"agent_message", none, some "Hello"⟩⟩] := by
  have h := c8_unroutable_event_dropped ⟨[((1 : Int), "C")], []⟩
    ⟨"codex/event", ReqIdVal.num 2,
     some ⟨"agent_message_delta", some "Hel", none⟩⟩
    [WireLine.notif
      ⟨"codex/event", ReqIdVal.num 1,
       some ⟨"agent_message", none, some "Hello"⟩⟩]
    rfl (by decide)
  exact ⟨rfl, by decide, h.1, h.2⟩

/-! ### C1: correlator delivery and pending-table removal -/

/-- C1 counterexample: register request id 1, then let its wait end by the
per-request timeout.  `requestForChannel`'s timeout (and cancellation) arm
returns without touching the pending table, so the entry for id 1 is still
present — the removal the claim requires for every way the wait can end did
not happen, and if no response ever arrives the entry is leaked. -/
theorem c1_counterexample_timeout_leaves_entry :
    (corrRun [PendEv.register 1, PendEv.timeoutEnd 1]).pending = [1] := by
  rfl

lemma corrStep_counts (st : CorrState) (e : PendEv) (id : Nat) :
    (corrStep st e).pending.count id + (corrStep st e).delivered.count id
      ≤ st.pending.count id + st.delivered.count id
          + (if e = PendEv.register id then 1 else 0) := by
  cases e with
  | register j =>
      by_cases hj : j = id
      · subst hj
        simp [corrStep, List.count_cons]
        omega
      · have hne : ¬ PendEv.register j = PendEv.register id := by
          simp [hj]
        rw [if_neg hne]
        have hcnt : (corrStep st (PendEv.register j)).pending.count id
            = st.pending.count id := by
          simp [corrStep, List.count_cons, hj]
        have hdel : (corrStep st (PendEv.register j)).delivered.count id
            = st.delivered.count id := rfl
        omega
  | respond j =>
      have hne : ¬ PendEv.respond j = PendEv.register id := by simp
      rw [if_neg hne]
      show ((if j ∈ st.pending
              then CorrState.mk (st.pending.erase j) (st.delivered ++ [j])
              else st).pending.count id
            + (if j ∈ st.pending
                then CorrState.mk (st.pending.erase j) (st.delivered ++ [j])
                else st).delivered.count id)
          ≤ st.pending.count id + st.delivered.count id + 0
      by_cases hmem : j ∈ st.pending
      · rw [if_pos hmem]
        simp only [List.count_append]
        by_cases hj : j = id
        · subst hj
          have hpos : 0 < st.pending.count j := List.count_pos_iff.mpr hmem
          have herase : (st.pending.erase j).count j
              = st.pending.count j - 1 := List.count_erase_self j st.pending
          have hone : List.count j [j] = 1 := by simp
          omega
        · have herase : (st.pending.erase j).count id
              = st.pending.count id :=
            List.count_erase_of_ne (fun h => hj h.symm) st.pending
          have hzero : List.count id [j] = 0 := by
            simp [List.count_cons, hj]
          omega
      · rw [if_neg hmem]
        omega
  | timeoutEnd j => simp [corrStep]
  | cancelEnd j => simp [corrStep]
  | clearAll => simp [corrStep]

lemma corr_count_le (evs : List PendEv) (id : Nat) :
    ∀ st : CorrState,
      (corrRunFrom st evs).pending.count id
          + (corrRunFrom st evs).delivered.count id
        ≤ st.pending.count id + st.delivered.count id
            + registerCount evs id := by
  induction evs with
  | nil =>
      intro st
      simp [corrRunFrom, registerCount]
  | cons e rest ih =>
      intro st
      have hrun : corrRunFrom st (e :: rest)
          = corrRunFrom (corrStep st e) rest := rfl
      have hcnt : registerCount (e :: rest) id
          = registerCount rest id
              + (if e = PendEv.register id then 1 else 0) := by
        unfold registerCount
        rw [List.count_cons]
        by_cases he : e = PendEv.register id <;> simp [he]
      rw [hrun, hcnt]
      have hstep := corrStep_counts st e id
      have hrest := ih (corrStep st e)
      omega

/-- C1 amended: `deliver` removes the pending entry and hands the response to
its slot at most once per issued id (ids are never reused), so there is no
double delivery and an id is never simultaneously pending and delivered; but
a wait ending by per-request timeout or caller cancellation leaves the
pending table unchanged — the entry is removed only by a later matching
response or by the wholesale pending reset of the restart path. -/
theorem c1_amended_single_delivery_timeout_no_removal
    (evs : List PendEv) (id : Nat)
    (hone : registerCount evs id ≤ 1) :
    (∀ st : CorrState,
        corrStep st (PendEv.timeoutEnd id) = st ∧
        corrStep st (PendEv.cancelEnd id) = st) ∧
    (corrRun evs).delivered.count id ≤ 1 ∧
    (corrRun evs).pending.count id + (corrRun evs).delivered.count id
      ≤ 1 := by
  have h := corr_count_le evs id ⟨[], []⟩
  simp only [List.count_nil] at h
  refine ⟨fun st => ⟨rfl, rfl⟩, ?_, ?_⟩
  · unfold corrRun
    omega
  · unfold corrRun
    omega

theorem c1_witness :
    registerCount [PendEv.register 1, PendEv.respond 1, PendEv.respond 1,
        PendEv.timeoutEnd 1] 1 ≤ 1 ∧
    (corrRun [PendEv.register 1, PendEv.respond 1, PendEv.respond 1,
        PendEv.timeoutEnd 1]).delivered.count 1 ≤ 1 ∧
    (corrRun [PendEv.register 1, PendEv.respond 1, PendEv.respond 1,
        PendEv.timeoutEnd 1]).pending.count 1
        + (corrRun [PendEv.register 1, PendEv.respond 1, PendEv.respond 1,
            PendEv.timeoutEnd 1]).delivered.count 1
      ≤ 1 := by
  have h := c1_amended_single_delivery_timeout_no_removal
    [PendEv.register 1, PendEv.respond 1, PendEv.respond 1,
     PendEv.timeoutEnd 1] 1 (by decide)
  exact ⟨by decide, h.2.1, h.2.2⟩

/-! ### C6: tail-transport session discovery -/

lemma entryQualifies_true_iff (before : List (String × Int)) (since : Int)
    (e : DirEntry) :
    entryQualifies before since e = true ↔
      (e.isDir = false ∧ strEndsWith (lowerName e.name) ".jsonl" = true ∧
       since - sessionGraceSeconds ≤ e.mtime ∧
       (lookupSnap before e.path = none ∨
        ∃ bt, lookupSnap before e.path = some bt ∧ bt < e.mtime)) := by
  unfold entryQualifies isJsonlFile
  rcases h : lookupSnap before e.path with _ | bt
  · simp [h, Bool.and_eq_true, not_lt, and_assoc]
  · simp [h, Bool.and_eq_true, not_lt, and_assoc]

lemma pick_aux (before : List (String × Int)) (since : Int) (p : String) :
    ∀ (entries : List DirEntry) (acc : Int × Option String),
      (entries.foldl (pickStep before since) acc).2 = some p →
      acc.2 = some p ∨
        ∃ e, e ∈ entries ∧ e.path = p ∧
          entryQualifies before since e = true := by
  intro entries
  induction entries with
  | nil => intro acc h; exact Or.inl h
  | cons e rest ih =>
      intro acc h
      rcases ih (pickStep before since acc e) h with hacc | ⟨e', he', hp, hq⟩
      · unfold pickStep at hacc
        by_cases hc :
            (entryQualifies before since e && decide (acc.1 < e.mtime))
              = true
        · rw [if_pos hc] at hacc
          have hq : entryQualifies before since e = true :=
            (Bool.and_eq_true _ _ |>.mp hc).1
          exact Or.inr ⟨e, List.mem_cons_self e rest,
            Option.some.injEq _ _ |>.mp hacc, hq⟩
        · rw [if_neg hc] at hacc
          exact Or.inl hacc
      · exact Or.inr ⟨e', List.mem_cons_of_mem e he', hp, hq⟩

lemma pick_none (before : List (String × Int)) (since : Int) :
    ∀ entries : List DirEntry,
      (∀ e ∈ entries, entryQualifies before since e = false) →
      pickCandidate entries before since = none := by
  have haux : ∀ (entries : List DirEntry) (acc : Int × Option String),
      (∀ e ∈ entries, entryQualifies before since e = false) →
      entries.foldl (pickStep before since) acc = acc := by
    intro entries
    induction entries with
    | nil => intro acc _; rfl
    | cons e rest ih =>
        intro acc hall
        have hstep : pickStep before since acc e = acc := by
          unfold pickStep
          rw [hall e (List.mem_cons_self e rest)]
          simp
        show rest.foldl (pickStep before since) (pickStep before since acc e)
            = acc
        rw [hstep]
        exact ih acc (fun e' he' => hall e' (List.mem_cons_of_mem e he'))
  intro entries hall
  unfold pickCandidate
  rw [haux entries _ hall]

/-- C6: discovery returns only the path of a directory entry that is a
`.jsonl` regular file, modified no earlier than the 2-second grace window
before process start, and either absent from the baseline snapshot or
strictly newer than its baseline modification time; and when no poll within
the bounded timeout contains a qualifying file, discovery fails with the
session-discovery error and the spawned process is killed. -/
theorem c6_tail_session_discovery (polls : List (List DirEntry))
    (before : List (String × Int)) (since : Int) (p : String) :
    (waitNewSessionFileFromSnapshot polls before since = Except.ok p →
      ∃ poll, poll ∈ polls ∧ ∃ e, e ∈ poll ∧ e.path = p ∧
        e.isDir = false ∧ strEndsWith (lowerName e.name) ".jsonl" = true ∧
        since - sessionGraceSeconds ≤ e.mtime ∧
        (lookupSnap before e.path = none ∨
         ∃ bt, lookupSnap before e.path = some bt ∧ bt < e.mtime)) ∧
    ((∀ poll ∈ polls, ∀ e ∈ poll, entryQualifies before since e = false) →
      ensureDiscover polls before since
        = (Except.error "session file not found", true)) := by
  constructor
  · induction polls with
    | nil => intro h; exact absurd h (by simp [waitNewSessionFileFromSnapshot])
    | cons poll rest ih =>
        intro h
        unfold waitNewSessionFileFromSnapshot at h
        rcases hc : pickCandidate poll before since with _ | c
        · rw [hc] at h
          rcases ih h with ⟨poll', hmem, hrest⟩
          exact ⟨poll', List.mem_cons_of_mem poll hmem, hrest⟩
        · rw [hc] at h
          have hcp : c = p := by
            have := h
            simp only [Except.ok.injEq] at this
            exact this
          subst hcp
          rcases pick_aux before since c poll
              ((0 : Int), (none : Option String)) hc with habs | ⟨e, he, hp, hq⟩
          · exact absurd habs (by simp)
          · rcases (entryQualifies_true_iff before since e).mp hq with
              ⟨h1, h2, h3, h4⟩
            exact ⟨poll, List.mem_cons_self poll rest,
              e, he, hp, h1, h2, h3, h4⟩
  · intro hall
    have herr : waitNewSessionFileFromSnapshot polls before since
        = Except.error "session file not found" := by
      induction polls with
      | nil => rfl
      | cons poll rest ih =>
          unfold waitNewSessionFileFromSnapshot
          rw [pick_none before since poll
            (hall poll (List.mem_cons_self poll rest))]
          exact ih (fun poll' hmem' e he' =>
            hall poll' (List.mem_cons_of_mem poll hmem') e he')
    unfold ensureDiscover
    rw [herr]

theorem c6_witness :
    (waitNewSessionFileFromSnapshot
        [[DirEntry.mk "s/a.jsonl" "a.jsonl" false 100]]
        [("s/old.jsonl", 50)] 99
      = Except.ok "s/a.jsonl") ∧
    (∃ poll,
        poll ∈ [[DirEntry.mk "s/a.jsonl" "a.jsonl" false 100]] ∧
        ∃ e, e ∈ poll ∧ e.path = "s/a.jsonl" ∧
          e.isDir = false ∧ strEndsWith (lowerName e.name) ".jsonl" = true ∧
          (99 : Int) - sessionGraceSeconds ≤ e.mtime ∧
          (lookupSnap [("s/old.jsonl", 50)] e.path = none ∨
           ∃ bt, lookupSnap [("s/old.jsonl", 50)] e.path = some bt ∧
             bt < e.mtime)) ∧
    (∀ poll ∈ [[DirEntry.mk "s/old.jsonl" "old.jsonl" false 50]],
        ∀ e ∈ poll,
          entryQualifies [("s/old.jsonl", 50)] 99 e = false) ∧
    ensureDiscover [[DirEntry.mk "s/old.jsonl" "old.jsonl" false 50]]
        [("s/old.jsonl", 50)] 99
      = (Except.error "session file not found", true) := by
  have h1 := c6_tail_session_discovery
    [[DirEntry.mk "s/a.jsonl" "a.jsonl" false 100]]
    [("s/old.jsonl", 50)] 99 "s/a.jsonl"
  have h2 := c6_tail_session_discovery
    [[DirEntry.mk "s/old.jsonl" "old.jsonl" false 50]]
    [("s/old.jsonl", 50)] 99 "s/old.jsonl"
  have hallold : ∀ poll ∈ [[DirEntry.mk "s/old.jsonl" "old.jsonl" false 50]],
      ∀ e ∈ poll, entryQualifies [("s/old.jsonl", 50)] 99 e = false := by
    intro poll hpoll e he
    rw [List.mem_singleton] at hpoll
    subst hpoll
    rw [List.mem_singleton] at he
    subst he
    rfl
  exact ⟨rfl, h1.1 rfl, hallold, h2.2 hallold⟩

end Discodex
